import Mathlib

/-!
Shallow embedding of the consignment-store backend's commission engine
and its helpers: the commission report generator
(getOrCreateCommissionReport), the verification gate
(GET /commissions/:id/verify), the payment recorder
(POST /commissions/payment), the dashboard report aggregator
(getConsignorCommissions) and the key-naming translator
(toCamelCase / toSnakeCase).

Modelling choices:
- monetary amounts and rates are rationals;
- dates (sale_date, period_start, period_end) are naturals: ISO date
  strings compare lexicographically, which is order-isomorphic to Nat,
  and the code only ever compares dates for equality and order;
- statuses and other free-form text are strings;
- the relational store is a record of row lists, one per table; a store
  query is a filter, a single-row fetch is find?, an insert is an
  append, an update/delete is a map/filter over the matching rows;
- nullable columns and optional JSON fields are Option values, and the
  JavaScript truthiness checks of the code are modelled explicitly on
  those options (missing, 0 and the empty string are falsy);
- the data store itself is the reliable external collaborator of the
  spec; the one store failure the code compensates for (the batch
  insert of commission items) is modelled by a boolean outcome flag.
-/

/-- A row of the commission_tracking table. -/
structure TrackingRow where
  id : Nat
  consignor_id : Int
  period_start : Nat
  period_end : Nat
  total_sales : Rat
  total_commission : Rat
  status : String
  paid_amount : Rat
  deriving Repr, DecidableEq

/-- A row of the commission_items table. -/
structure CommissionItemRow where
  commission_tracking_id : Nat
  sale_item_id : Nat
  product_id : Nat
  sale_amount : Option Rat
  commission_rate : Rat
  commission_amount : Option Rat
  deriving Repr, DecidableEq

/-- A row of the commission_payments table. -/
structure PaymentRow where
  commission_tracking_id : Nat
  amount : Rat
  payment_date : String
  payment_method : String
  transaction_reference : Option String
  bank_name : Option String
  account_last_four : Option String
  card_last_four : Option String
  card_type : Option String
  deriving Repr, DecidableEq

/-- A sale_items row as the commission report query sees it, with the
joined sale_header sale_date and the joined agreement commission rate
flattened in.  Columns that may be null are options. -/
structure SaleItemRow where
  id : Nat
  product_id : Nat
  quantity : Nat
  unit_price : Rat
  commission : Option Rat
  line_total : Option Rat
  sale_id : Nat
  consignor_id : Int
  sale_date : Nat
  agreement_rate : Option Rat
  deriving Repr, DecidableEq

/-- The slice of the relational store the commission engine touches. -/
structure Store where
  tracking : List TrackingRow
  commissionItems : List CommissionItemRow
  payments : List PaymentRow
  saleItems : List SaleItemRow
  deriving Repr, DecidableEq

/-- Single-row fetch of commission_tracking by the
(consignor_id, period_start, period_end) triple. -/
def findTracking (cid : Int) (ps pe : Nat) (l : List TrackingRow) : Option TrackingRow :=
  l.find? fun t => t.consignor_id == cid && t.period_start == ps && t.period_end == pe

/-- Single-row fetch of commission_tracking by id. -/
def lookupTracking (id : Nat) (s : Store) : Option TrackingRow :=
  s.tracking.find? fun t => t.id == id

/-- commission_items rows for one tracking record. -/
def itemsFor (id : Nat) (s : Store) : List CommissionItemRow :=
  s.commissionItems.filter fun c => c.commission_tracking_id == id

/-- commission_payments rows for one tracking record. -/
def paymentsFor (id : Nat) (s : Store) : List PaymentRow :=
  s.payments.filter fun p => p.commission_tracking_id == id

/-- The sale_items query of the report generator: all items of the
consignor whose sale date falls inside the inclusive period. -/
def matchingSaleItems (cid : Int) (ps pe : Nat) (s : Store) : List SaleItemRow :=
  s.saleItems.filter fun i =>
    i.consignor_id == cid && decide (ps ≤ i.sale_date) && decide (i.sale_date ≤ pe)

/-- The id the store assigns to a freshly inserted tracking row. -/
def freshTrackingId (s : Store) : Nat :=
  (s.tracking.map (·.id)).foldr max 0 + 1

/-- The commission_items payload built while mapping over the matching
sale items, together with the two running totals the code accumulates
(total commission, then total sales).  The tracking id of each payload
row starts out unset (0, for the null of the code) and is filled in
just before the batch insert. -/
def buildCommissionItems : List SaleItemRow → Rat → Rat → List CommissionItemRow × Rat × Rat
  | [], totalCommission, totalSales => ([], totalCommission, totalSales)
  | i :: rest, totalCommission, totalSales =>
    let next := buildCommissionItems rest
      (totalCommission + i.commission.getD 0) (totalSales + i.line_total.getD 0)
    ({ commission_tracking_id := 0
       sale_item_id := i.id
       product_id := i.product_id
       sale_amount := i.line_total
       commission_rate := i.agreement_rate.getD 0
       commission_amount := i.commission } :: next.1, next.2)

/-- The report shape returned on success: the tracking record spread
out, plus its commission items and any payments. -/
structure Report where
  tracking : TrackingRow
  commission_items : List CommissionItemRow
  payments : List PaymentRow
  deriving Repr, DecidableEq

/-- Outcome of getOrCreateCommissionReport.  noSales is the 200
"No sales found for this period" answer with a null report, success the
200 report answer, storeError the 500 answer after a thrown store
error. -/
inductive ReportResult where
  | noSales
  | success (r : Report)
  | storeError
  deriving Repr, DecidableEq

/-- getOrCreateCommissionReport of the commission controller.
itemsInsertOk tells whether the batch insert into commission_items
succeeds; every other store call succeeds. -/
def getOrCreateCommissionReport (itemsInsertOk : Bool) (cid : Int) (ps pe : Nat)
    (s : Store) : ReportResult × Store :=
  match findTracking cid ps pe s.tracking with
  | some existing =>
    (.success ⟨existing, itemsFor existing.id s, paymentsFor existing.id s⟩, s)
  | none =>
    let saleItems := matchingSaleItems cid ps pe s
    if saleItems.isEmpty then
      (.noSales, s)
    else
      let built := buildCommissionItems saleItems 0 0
      let newId := freshTrackingId s
      let newTracking : TrackingRow :=
        { id := newId
          consignor_id := cid
          period_start := ps
          period_end := pe
          total_sales := built.2.2
          total_commission := built.2.1
          status := "pending"
          paid_amount := 0 }
      let s1 := { s with tracking := s.tracking ++ [newTracking] }
      let itemsToInsert := built.1.map fun r => { r with commission_tracking_id := newId }
      if itemsInsertOk then
        let s2 := { s1 with commissionItems := s1.commissionItems ++ itemsToInsert }
        (.success ⟨newTracking, built.1, paymentsFor newId s2⟩, s2)
      else
        (.storeError, { s1 with tracking := s1.tracking.filter fun t => t.id != newId })

/-- Outcome of the GET /commissions/:id/verify route. -/
inductive VerifyResult where
  | notFound
  | payable (commission_id : Nat) (total_commission : Rat)
  | alreadyPaid
  | unpayable (status : String)
  deriving Repr, DecidableEq

/-- The verify route of the commission router: fetch the tracking row
by id, answer 404 when absent, 200 payable for pending or calculated,
400 already-paid for paid, and the defensive 400 unpayable answer for
any other status value. -/
def verifyCommission (id : Nat) (s : Store) : VerifyResult :=
  match lookupTracking id s with
  | none => .notFound
  | some c =>
    if c.status = "pending" ∨ c.status = "calculated" then
      .payable c.id c.total_commission
    else if c.status = "paid" then
      .alreadyPaid
    else
      .unpayable c.status

/-- The JSON body of POST /commissions/payment.  A missing field is
none. -/
structure PaymentRequest where
  commission_tracking_id : Option Nat
  amount : Option Rat
  payment_date : Option String
  payment_method : Option String
  transaction_reference : Option String
  bank_name : Option String
  account_last_four : Option String
  card_last_four : Option String
  card_type : Option String
  deriving Repr, DecidableEq

/-- JavaScript truthiness of an optional id: missing and 0 are falsy. -/
def truthyNat : Option Nat → Bool
  | none => false
  | some n => n != 0

/-- JavaScript truthiness of an optional number: missing and 0 are falsy. -/
def truthyRat : Option Rat → Bool
  | none => false
  | some q => q != 0

/-- JavaScript truthiness of an optional string: missing and the empty
string are falsy. -/
def truthyStr : Option String → Bool
  | none => false
  | some s => s != ""

/-- The required-field gate of the payment route: the four required
fields must all be truthy. -/
def requiredFieldsPresent (req : PaymentRequest) : Bool :=
  truthyNat req.commission_tracking_id && truthyRat req.amount &&
    truthyStr req.payment_date && truthyStr req.payment_method

/-- Outcome of POST /commissions/payment.  missingFields is the 400
missing-required-fields answer, notFoundOrPaid the 404
"Commission not found or already paid" answer, amountMismatch the 400
answer naming both amounts, success the 201 answer with the inserted
payment row. -/
inductive PaymentResult where
  | missingFields
  | notFoundOrPaid
  | amountMismatch (submitted expected : Rat)
  | success (payment : PaymentRow)
  deriving Repr, DecidableEq

/-- The payment route of the commission router: truthiness check of the
four required fields, fetch of the tracking row by id, status check
(pending or calculated), exact amount comparison, then the payment
insert followed by the status update to paid. -/
def recordPayment (req : PaymentRequest) (s : Store) : PaymentResult × Store :=
  if !requiredFieldsPresent req then
    (.missingFields, s)
  else
    let id := req.commission_tracking_id.getD 0
    let amount := req.amount.getD 0
    match lookupTracking id s with
    | none => (.notFoundOrPaid, s)
    | some commission =>
      if !(commission.status == "pending" || commission.status == "calculated") then
        (.notFoundOrPaid, s)
      else if amount != commission.total_commission then
        (.amountMismatch amount commission.total_commission, s)
      else
        let payment : PaymentRow :=
          { commission_tracking_id := id
            amount := amount
            payment_date := req.payment_date.getD ""
            payment_method := req.payment_method.getD ""
            transaction_reference := req.transaction_reference
            bank_name := req.bank_name
            account_last_four := req.account_last_four
            card_last_four := req.card_last_four
            card_type := req.card_type }
        (.success payment,
          { s with
            payments := s.payments ++ [payment]
            tracking := s.tracking.map fun t =>
              if t.id == id then { t with status := "paid" } else t })

/-- The joined consignor of a sale line in the dashboard query. -/
structure ConsignorJoin where
  id : Nat
  full_name : String
  deriving Repr, DecidableEq

/-- The joined product of a sale line in the dashboard query. -/
structure ProductJoin where
  consignors : Option ConsignorJoin
  deriving Repr, DecidableEq

/-- One sale line as fetched by the consignor-commissions dashboard
query.  Fields the row may lack are options. -/
structure CommissionLine where
  line_total : Option Rat
  commission_rate : Option Rat
  products : Option ProductJoin
  deriving Repr, DecidableEq

/-- One aggregated output entry of the dashboard. -/
structure AggEntry where
  id : Nat
  consignorName : String
  totalSales : Rat
  commissionRate : Rat
  commissionAmount : Rat
  deriving Repr, DecidableEq

/-- The two skip checks of the aggregation loop: a line without joined
product or consignor data is dropped with a warning, and so is a line
with a falsy consignor id or name or a missing rate or total.  A
surviving line yields (consignor id, consignor name, rate, total). -/
def extractLine (l : CommissionLine) : Option (Nat × String × Rat × Rat) :=
  match l.products with
  | none => none
  | some p =>
    match p.consignors with
    | none => none
    | some c =>
      match l.commission_rate, l.line_total with
      | some rate, some total =>
        if c.id == 0 || c.full_name == "" then none
        else some (c.id, c.full_name, rate, total)
      | _, _ => none

/-- The in-place mutation of the looked-up map entry: add the line's
total to totalSales and total times rate to commissionAmount; the
stored commissionRate is not touched. -/
def bumpEntry (total rate : Rat) (e : AggEntry) : AggEntry :=
  { e with
    totalSales := e.totalSales + total
    commissionAmount := e.commissionAmount + total * rate }

/-- Apply the mutation to the map entry keyed by the line's consignor. -/
def updEntry (cid : Nat) (total rate : Rat) (kv : Nat × AggEntry) : Nat × AggEntry :=
  if kv.1 == cid then (kv.1, bumpEntry total rate kv.2) else kv

/-- One step of the aggregation loop over the in-memory map, modelled
as an association list keyed by consignor id: create the entry with
zero totals and the rate of the creating line when the key is new, then
add the line's total to totalSales and total times rate to
commissionAmount. -/
def processLine (m : List (Nat × AggEntry)) (line : CommissionLine) : List (Nat × AggEntry) :=
  match extractLine line with
  | none => m
  | some (cid, name, rate, total) =>
    let m1 :=
      if (m.find? fun kv => kv.1 == cid).isSome then m
      else m ++ [(cid, ⟨cid, name, 0, rate, 0⟩)]
    m1.map (updEntry cid total rate)

/-- getConsignorCommissions of the report controller, from the fetched
sale lines to the list of aggregated entries. -/
def getConsignorCommissions (lines : List CommissionLine) : List AggEntry :=
  (lines.foldl processLine []).map (·.2)

/-- The lines that survive both skip checks, in processing order. -/
def validRows (lines : List CommissionLine) : List (Nat × String × Rat × Rat) :=
  lines.filterMap extractLine

/-- The surviving lines of one consignor, in processing order. -/
def rowsFor (cid : Nat) (lines : List CommissionLine) : List (Nat × String × Rat × Rat) :=
  (validRows lines).filter fun r => r.1 == cid

/-- Is the character one the regex class for lowercase letters matches
(the 26 basic latin lowercase letters)? -/
def isAsciiLower (c : Char) : Bool :=
  97 ≤ c.toNat && c.toNat ≤ 122

/-- Is the character one the regex class for uppercase letters matches
(the 26 basic latin uppercase letters)? -/
def isAsciiUpper (c : Char) : Bool :=
  65 ≤ c.toNat && c.toNat ≤ 90

/-- The global regex rewrite of a key towards capitalizedWord case: an
underscore followed by a lowercase letter becomes that letter
uppercased; everything else is kept. -/
def camelChars : List Char → List Char
  | [] => []
  | '_' :: c :: rest =>
    if isAsciiLower c then c.toUpper :: camelChars rest
    else '_' :: camelChars (c :: rest)
  | c :: rest => c :: camelChars rest

/-- The global regex rewrite of a key towards underscore_case: every
uppercase letter becomes an underscore followed by its lowercase
letter; everything else is kept. -/
def snakeChars : List Char → List Char
  | [] => []
  | c :: rest =>
    if isAsciiUpper c then '_' :: c.toLower :: snakeChars rest
    else c :: snakeChars rest

/-- Key rewrite used by toCamelCase. -/
def camelKey (k : String) : String :=
  ⟨camelChars k.data⟩

/-- Key rewrite used by toSnakeCase. -/
def snakeKey (k : String) : String :=
  ⟨snakeChars k.data⟩

/-- A key is consistently underscore_case when it contains no uppercase
letter. -/
def isSnakeKey (k : String) : Bool :=
  k.data.all fun c => !(isAsciiUpper c)

mutual
/-- A JSON-ish JavaScript value as the naming translator sees it: null
(or undefined), a primitive, an array, or an object given by its keyed
fields. -/
inductive JValue where
  | null
  | jbool (b : Bool)
  | num (q : Rat)
  | str (s : String)
  | arr (items : JArray)
  | obj (fields : JObject)
inductive JArray where
  | nil
  | cons (head : JValue) (tail : JArray)
inductive JObject where
  | nil
  | cons (key : String) (value : JValue) (tail : JObject)
end

/-- Element-wise map over a modelled JavaScript array. -/
def mapArray (f : JValue → JValue) : JArray → JArray
  | .nil => .nil
  | .cons v rest => .cons (f v) (mapArray f rest)

mutual
/-- toCamelCase of the agreement controller: arrays map element-wise,
objects have every key rewritten by camelKey and every value
transformed recursively, anything else (null included) is returned
unchanged. -/
def toCamelCase : JValue → JValue
  | .null => .null
  | .jbool b => .jbool b
  | .num q => .num q
  | .str s => .str s
  | .arr items => .arr (camelCaseArray items)
  | .obj fields => .obj (camelCaseObject fields)
def camelCaseArray : JArray → JArray
  | .nil => .nil
  | .cons v rest => .cons (toCamelCase v) (camelCaseArray rest)
def camelCaseObject : JObject → JObject
  | .nil => .nil
  | .cons k v rest => .cons (camelKey k) (toCamelCase v) (camelCaseObject rest)
end

mutual
/-- toSnakeCase of the agreement controller: arrays map element-wise,
objects have every key rewritten by snakeKey and every value
transformed recursively, anything else (null included) is returned
unchanged. -/
def toSnakeCase : JValue → JValue
  | .null => .null
  | .jbool b => .jbool b
  | .num q => .num q
  | .str s => .str s
  | .arr items => .arr (snakeCaseArray items)
  | .obj fields => .obj (snakeCaseObject fields)
def snakeCaseArray : JArray → JArray
  | .nil => .nil
  | .cons v rest => .cons (toSnakeCase v) (snakeCaseArray rest)
def snakeCaseObject : JObject → JObject
  | .nil => .nil
  | .cons k v rest => .cons (snakeKey k) (toSnakeCase v) (snakeCaseObject rest)
end

mutual
/-- Does every object key of the value contain no uppercase letter? -/
def allSnakeKeys : JValue → Bool
  | .null => true
  | .jbool _ => true
  | .num _ => true
  | .str _ => true
  | .arr items => allSnakeKeysArray items
  | .obj fields => allSnakeKeysObject fields
def allSnakeKeysArray : JArray → Bool
  | .nil => true
  | .cons v rest => allSnakeKeys v && allSnakeKeysArray rest
def allSnakeKeysObject : JObject → Bool
  | .nil => true
  | .cons k v rest => isSnakeKey k && allSnakeKeys v && allSnakeKeysObject rest
end

/-! ## Helper lemmas -/

theorem mem_le_foldr_max (l : List Nat) (x : Nat) (hx : x ∈ l) : x ≤ l.foldr max 0 := by
  induction l with
  | nil => simp at hx
  | cons a t ih =>
    rcases List.mem_cons.mp hx with rfl | h2
    · simp [List.foldr]
    · have := ih h2
      simp only [List.foldr]
      omega

theorem freshTrackingId_not_used (s : Store) (t : TrackingRow) (ht : t ∈ s.tracking) :
    t.id ≠ freshTrackingId s := by
  have : t.id ∈ s.tracking.map (·.id) := List.mem_map_of_mem _ ht
  have := mem_le_foldr_max _ _ this
  unfold freshTrackingId
  omega

/-! ## C2: no sales, no writes -/

/-- C2: when no tracking record exists for the triple and no sale item
of the consignor falls in the period, getOrCreateCommissionReport
answers noSales and leaves the store completely unchanged: no
CommissionTracking row and no CommissionItem row is created. -/
theorem noSales_no_insert (ok : Bool) (cid : Int) (ps pe : Nat) (s : Store)
    (hNone : findTracking cid ps pe s.tracking = none)
    (hEmpty : matchingSaleItems cid ps pe s = []) :
    getOrCreateCommissionReport ok cid ps pe s = (.noSales, s) := by
  unfold getOrCreateCommissionReport
  rw [hNone]
  simp [hEmpty]

/-- A store with one sale item of consignor 7 dated outside the
requested period. -/
def outOfPeriodStore : Store :=
  { tracking := []
    commissionItems := []
    payments := []
    saleItems := [{ id := 1, product_id := 2, quantity := 1, unit_price := 40,
                    commission := some 4, line_total := some 40, sale_id := 9,
                    consignor_id := 7, sale_date := 99, agreement_rate := some 1 }] }

theorem noSales_no_insert_witness :
    getOrCreateCommissionReport true 7 10 20 outOfPeriodStore = (.noSales, outOfPeriodStore) :=
  noSales_no_insert true 7 10 20 outOfPeriodStore (by decide) (by decide)

/-! ## C4: compensating delete on items-insert failure -/

/-- C4: when the batch insert of CommissionItem rows fails after the
CommissionTracking row was inserted, the just-created tracking row is
deleted and the error is surfaced: the final store is exactly the
initial one, so no tracking header without its items survives. -/
theorem itemsInsert_failure_compensated (cid : Int) (ps pe : Nat) (s : Store)
    (hNone : findTracking cid ps pe s.tracking = none)
    (hNonempty : matchingSaleItems cid ps pe s ≠ []) :
    getOrCreateCommissionReport false cid ps pe s = (.storeError, s) := by
  unfold getOrCreateCommissionReport
  rw [hNone]
  simp only [List.isEmpty_iff, hNonempty, if_false, Bool.false_eq_true, if_neg, not_false_iff]
  have hfilter :
      (s.tracking.filter fun t => t.id != freshTrackingId s) = s.tracking :=
    List.filter_eq_self.mpr fun t ht => by
      simp [freshTrackingId_not_used s t ht]
  have hnew : ((freshTrackingId s : Nat) != freshTrackingId s) = false := by simp
  simp [List.filter_append, hfilter, hnew]

/-- A store with one in-period sale item of consignor 7 and no tracking
record yet. -/
def onePendingSaleStore : Store :=
  { tracking := []
    commissionItems := []
    payments := []
    saleItems := [{ id := 1, product_id := 2, quantity := 1, unit_price := 100,
                    commission := some 10, line_total := some 100, sale_id := 9,
                    consignor_id := 7, sale_date := 15, agreement_rate := some 1 }] }

theorem itemsInsert_failure_compensated_witness :
    getOrCreateCommissionReport false 7 10 20 onePendingSaleStore = (.storeError, onePendingSaleStore) :=
  itemsInsert_failure_compensated 7 10 20 onePendingSaleStore (by decide) (by decide)

/-! ## C5: totals of a freshly created report -/

/-- The row the report generator builds from one matching sale item,
before the tracking id is filled in. -/
def rowOfSaleItem (i : SaleItemRow) : CommissionItemRow :=
  { commission_tracking_id := 0
    sale_item_id := i.id
    product_id := i.product_id
    sale_amount := i.line_total
    commission_rate := i.agreement_rate.getD 0
    commission_amount := i.commission }

theorem buildCommissionItems_spec (l : List SaleItemRow) (tc ts : Rat) :
    buildCommissionItems l tc ts =
      (l.map rowOfSaleItem,
        tc + (l.map fun i => i.commission.getD 0).sum,
        ts + (l.map fun i => i.line_total.getD 0).sum) := by
  induction l generalizing tc ts with
  | nil => simp [buildCommissionItems]
  | cons i rest ih =>
    simp only [buildCommissionItems, ih, List.map_cons, List.sum_cons, rowOfSaleItem,
      Prod.mk.injEq]
    refine ⟨trivial, by ring, by ring⟩

/-- C5: for a non-empty set of matching sale items (and no existing
record), the created tracking record carries total_commission equal to
the sum of the items' commission fields and total_sales equal to the
sum of their line_total fields, has status pending and paid_amount 0,
and exactly one CommissionItem row is inserted per contributing sale
item. -/
theorem report_totals (cid : Int) (ps pe : Nat) (s : Store)
    (hNone : findTracking cid ps pe s.tracking = none)
    (hNonempty : matchingSaleItems cid ps pe s ≠ []) :
    ∃ rep s1, getOrCreateCommissionReport true cid ps pe s = (.success rep, s1)
      ∧ rep.tracking.total_commission
          = ((matchingSaleItems cid ps pe s).map fun i => i.commission.getD 0).sum
      ∧ rep.tracking.total_sales
          = ((matchingSaleItems cid ps pe s).map fun i => i.line_total.getD 0).sum
      ∧ rep.tracking.status = "pending"
      ∧ rep.tracking.paid_amount = 0
      ∧ s1.commissionItems = s.commissionItems
          ++ (matchingSaleItems cid ps pe s).map fun i =>
              { rowOfSaleItem i with commission_tracking_id := freshTrackingId s } := by
  unfold getOrCreateCommissionReport
  rw [hNone]
  simp only [List.isEmpty_iff, hNonempty, if_false, Bool.false_eq_true, if_neg,
    not_false_iff, if_true, buildCommissionItems_spec, zero_add]
  refine ⟨_, _, rfl, rfl, rfl, rfl, rfl, ?_⟩
  simp [List.map_map, Function.comp]

section
attribute [local semireducible] Rat.add Rat.mul Rat.sub Rat.inv

/-- The scenario of the spec: consignor 7, two in-period sale items
with line totals 100 and 50 and commissions 10 and 5. -/
def twoSalesStore : Store :=
  { tracking := []
    commissionItems := []
    payments := []
    saleItems := [{ id := 1, product_id := 2, quantity := 1, unit_price := 100,
                    commission := some 10, line_total := some 100, sale_id := 9,
                    consignor_id := 7, sale_date := 15, agreement_rate := some (1/10) },
                  { id := 2, product_id := 3, quantity := 1, unit_price := 50,
                    commission := some 5, line_total := some 50, sale_id := 9,
                    consignor_id := 7, sale_date := 16, agreement_rate := some (1/10) }] }

theorem report_totals_witness :
    ∃ rep s1, getOrCreateCommissionReport true 7 10 20 twoSalesStore = (.success rep, s1)
      ∧ rep.tracking.total_commission
          = ((matchingSaleItems 7 10 20 twoSalesStore).map fun i => i.commission.getD 0).sum
      ∧ rep.tracking.total_sales
          = ((matchingSaleItems 7 10 20 twoSalesStore).map fun i => i.line_total.getD 0).sum
      ∧ rep.tracking.status = "pending"
      ∧ rep.tracking.paid_amount = 0
      ∧ s1.commissionItems = twoSalesStore.commissionItems
          ++ (matchingSaleItems 7 10 20 twoSalesStore).map fun i =>
              { rowOfSaleItem i with commission_tracking_id := freshTrackingId twoSalesStore } :=
  report_totals 7 10 20 twoSalesStore (by decide) (by decide)

end

/-! ## C3: idempotent lookup, stored totals replayed -/

theorem findTracking_append_self (cid : Int) (ps pe : Nat) (l : List TrackingRow)
    (t : TrackingRow) (hNone : findTracking cid ps pe l = none)
    (hcid : t.consignor_id = cid) (hps : t.period_start = ps) (hpe : t.period_end = pe) :
    findTracking cid ps pe (l ++ [t]) = some t := by
  unfold findTracking at *
  rw [List.find?_append, hNone]
  simp [List.find?, hcid, hps, hpe]

theorem success_finds_tracking (ok : Bool) (cid : Int) (ps pe : Nat) (s : Store)
    (rep : Report) (s1 : Store)
    (h : getOrCreateCommissionReport ok cid ps pe s = (.success rep, s1)) :
    findTracking cid ps pe s1.tracking = some rep.tracking := by
  unfold getOrCreateCommissionReport at h
  cases hfind : findTracking cid ps pe s.tracking with
  | some t =>
    rw [hfind] at h
    simp only [Prod.mk.injEq, ReportResult.success.injEq] at h
    obtain ⟨h1, h2⟩ := h
    subst h2
    rw [← h1, hfind]
  | none =>
    rw [hfind] at h
    by_cases hEmpty : (matchingSaleItems cid ps pe s).isEmpty
    · simp only [hEmpty, if_true] at h
      simp at h
    · simp only [hEmpty, Bool.false_eq_true, if_false] at h
      cases ok with
      | false => simp at h
      | true =>
        simp only [if_true, Prod.mk.injEq, ReportResult.success.injEq] at h
        obtain ⟨h1, h2⟩ := h
        subst h2
        have h1t := congrArg Report.tracking h1
        dsimp only at h1t
        rw [← h1t]
        exact findTracking_append_self cid ps pe s.tracking _ hfind rfl rfl rfl

/-- C3: after a successful getOrCreateCommissionReport, a second call
with the identical (consignor, period_start, period_end) arguments — on
a store whose sale items may meanwhile have changed arbitrarily —
returns the very same tracking record (same id, the stored totals
as-is, no recomputation) and leaves the store untouched, so no second
CommissionTracking row is ever inserted. -/
theorem report_idempotent (ok ok' : Bool) (cid : Int) (ps pe : Nat) (s : Store)
    (rep : Report) (s1 : Store)
    (h : getOrCreateCommissionReport ok cid ps pe s = (.success rep, s1))
    (newSales : List SaleItemRow) :
    getOrCreateCommissionReport ok' cid ps pe { s1 with saleItems := newSales }
      = (.success ⟨rep.tracking,
            itemsFor rep.tracking.id { s1 with saleItems := newSales },
            paymentsFor rep.tracking.id { s1 with saleItems := newSales }⟩,
          { s1 with saleItems := newSales }) := by
  have hfind1 : findTracking cid ps pe ({ s1 with saleItems := newSales } : Store).tracking
      = some rep.tracking := success_finds_tracking ok cid ps pe s rep s1 h
  simp [getOrCreateCommissionReport, hfind1]

section
attribute [local semireducible] Rat.add Rat.mul Rat.sub Rat.inv

/-- The report the first call on onePendingSaleStore produces. -/
def firstCallReport : Report :=
  { tracking := { id := 1, consignor_id := 7, period_start := 10, period_end := 20,
                  total_sales := 100, total_commission := 10, status := "pending",
                  paid_amount := 0 }
    commission_items := [{ commission_tracking_id := 0, sale_item_id := 1, product_id := 2,
                           sale_amount := some 100, commission_rate := 1,
                           commission_amount := some 10 }]
    payments := [] }

/-- The store after the first call on onePendingSaleStore. -/
def firstCallStore : Store :=
  { tracking := [{ id := 1, consignor_id := 7, period_start := 10, period_end := 20,
                   total_sales := 100, total_commission := 10, status := "pending",
                   paid_amount := 0 }]
    commissionItems := [{ commission_tracking_id := 1, sale_item_id := 1, product_id := 2,
                          sale_amount := some 100, commission_rate := 1,
                          commission_amount := some 10 }]
    payments := []
    saleItems := onePendingSaleStore.saleItems }

/-- Different underlying sale data for the second call. -/
def changedSales : List SaleItemRow :=
  [{ id := 1, product_id := 2, quantity := 1, unit_price := 100,
     commission := some 99, line_total := some 999, sale_id := 9,
     consignor_id := 7, sale_date := 15, agreement_rate := some 1 }]

/-- The store the second call runs on: same tracking, items and
payments, changed sale items. -/
def secondCallStore : Store :=
  { firstCallStore with saleItems := changedSales }

theorem report_idempotent_witness :
    getOrCreateCommissionReport true 7 10 20 secondCallStore
      = (.success ⟨firstCallReport.tracking,
            itemsFor firstCallReport.tracking.id secondCallStore,
            paymentsFor firstCallReport.tracking.id secondCallStore⟩,
          secondCallStore) :=
  report_idempotent true true 7 10 20 onePendingSaleStore firstCallReport firstCallStore
    (by decide) changedSales

end

/-! ## C6: the verification gate -/

/-- C6: verify answers payable exactly when the record's status is
pending or calculated; a paid record is rejected as already paid; a
record with any other status value is rejected as unpayable, carrying
that status; a nonexistent id yields the distinct not-found result. -/
theorem verify_gate (id : Nat) (s : Store) :
    (lookupTracking id s = none → verifyCommission id s = .notFound)
    ∧ ∀ c, lookupTracking id s = some c →
        ((verifyCommission id s = .payable c.id c.total_commission)
            ↔ (c.status = "pending" ∨ c.status = "calculated"))
        ∧ (c.status = "paid" → verifyCommission id s = .alreadyPaid)
        ∧ (c.status ≠ "pending" → c.status ≠ "calculated" → c.status ≠ "paid" →
            verifyCommission id s = .unpayable c.status) := by
  constructor
  · intro h
    simp [verifyCommission, h]
  · intro c hc
    refine ⟨⟨?_, ?_⟩, ?_, ?_⟩
    · intro hv
      by_contra hno
      push_neg at hno
      obtain ⟨h1, h2⟩ := hno
      by_cases hp : c.status = "paid" <;>
        simp [verifyCommission, hc, h1, h2, hp] at hv
    · intro hs
      simp [verifyCommission, hc, hs]
    · intro hp
      have h1 : ¬ (c.status = "pending" ∨ c.status = "calculated") := by
        rw [hp]; decide
      simp [verifyCommission, hc, h1, hp]
    · intro h1 h2 h3
      have hno : ¬ (c.status = "pending" ∨ c.status = "calculated") := by
        rintro (h | h) <;> simp_all
      simp [verifyCommission, hc, hno, h3]

/-- Rows covering the four verify outcomes. -/
def vRow1 : TrackingRow :=
  { id := 1, consignor_id := 7, period_start := 10, period_end := 20,
    total_sales := 150, total_commission := 15, status := "pending", paid_amount := 0 }

def vRow2 : TrackingRow :=
  { id := 2, consignor_id := 7, period_start := 10, period_end := 20,
    total_sales := 150, total_commission := 15, status := "paid", paid_amount := 15 }

def vRow3 : TrackingRow :=
  { id := 3, consignor_id := 7, period_start := 10, period_end := 20,
    total_sales := 150, total_commission := 15, status := "archived", paid_amount := 0 }

def verifyStore : Store := ⟨[vRow1, vRow2, vRow3], [], [], []⟩

theorem verify_gate_witness :
    verifyCommission 1 verifyStore = .payable 1 15
    ∧ verifyCommission 2 verifyStore = .alreadyPaid
    ∧ verifyCommission 3 verifyStore = .unpayable "archived"
    ∧ verifyCommission 9 verifyStore = .notFound :=
  ⟨((verify_gate 1 verifyStore).2 vRow1 (by decide)).1.mpr (Or.inl rfl),
    ((verify_gate 2 verifyStore).2 vRow2 (by decide)).2.1 rfl,
    ((verify_gate 3 verifyStore).2 vRow3 (by decide)).2.2 (by decide) (by decide) (by decide),
    (verify_gate 9 verifyStore).1 (by decide)⟩

/-! ## C1, C8, C10: the payment transition -/

theorem truthyRat_spec (o : Option Rat) (h : truthyRat o = true) :
    ∃ q, o = some q ∧ q ≠ 0 := by
  cases o with
  | none => simp [truthyRat] at h
  | some q => exact ⟨q, rfl, by simpa [truthyRat] using h⟩

/-- C1: given the four required fields pass the truthiness gate,
recordPayment succeeds if and only if the tracking record exists with
status pending or calculated and the submitted amount equals its
total_commission exactly; on success exactly one CommissionPayment row
is appended for that tracking id and every tracking row with that id
now carries status paid. -/
theorem recordPayment_succeeds_iff (req : PaymentRequest) (s : Store)
    (hf : requiredFieldsPresent req = true) :
    ((∃ p, (recordPayment req s).1 = .success p) ↔
        ∃ c, lookupTracking (req.commission_tracking_id.getD 0) s = some c
          ∧ (c.status = "pending" ∨ c.status = "calculated")
          ∧ req.amount = some c.total_commission)
    ∧ ∀ p, (recordPayment req s).1 = .success p →
        paymentsFor (req.commission_tracking_id.getD 0) (recordPayment req s).2
          = paymentsFor (req.commission_tracking_id.getD 0) s ++ [p]
        ∧ ∀ t ∈ (recordPayment req s).2.tracking,
            t.id = req.commission_tracking_id.getD 0 → t.status = "paid" := by
  have hfa : truthyRat req.amount = true := by
    simp [requiredFieldsPresent] at hf
    exact hf.1.1.2
  obtain ⟨q, hq, hq0⟩ := truthyRat_spec req.amount hfa
  unfold recordPayment
  simp only [hf, Bool.not_true, Bool.false_eq_true, if_false]
  cases hlc : lookupTracking (req.commission_tracking_id.getD 0) s with
  | none => simp
  | some c =>
    by_cases hst : (c.status == "pending" || c.status == "calculated") = true
    · have hstp : c.status = "pending" ∨ c.status = "calculated" := by
        rcases Bool.or_eq_true_iff.mp hst with h | h
        · exact Or.inl (beq_iff_eq.mp h)
        · exact Or.inr (beq_iff_eq.mp h)
      by_cases ham : (req.amount.getD 0 != c.total_commission) = true
      · have hamne : req.amount ≠ some c.total_commission := by
          rw [hq]
          intro hcon
          rw [hq, Option.getD_some] at ham
          exact bne_iff_ne.mp ham (Option.some.injEq _ _ ▸ hcon)
        simp [hst, ham, hstp, hamne]
      · have ham2 : (req.amount.getD 0 != c.total_commission) = false := by
          simpa using ham
        have hameq : req.amount = some c.total_commission := by
          rw [hq, Option.getD_some] at ham2
          have heq : q = c.total_commission := by simpa using ham2
          rw [hq, heq]
        simp only [hst, Bool.not_true, Bool.false_eq_true, if_false, ham2]
        constructor
        · simp [hstp, hameq]
        · intro p hp
          simp only [PaymentResult.success.injEq] at hp
          subst hp
          constructor
          · simp [paymentsFor, List.filter_append]
          · intro t ht hid
            simp only [List.mem_map] at ht
            obtain ⟨t0, _, hmap⟩ := ht
            by_cases h0 : (t0.id == req.commission_tracking_id.getD 0) = true
            · rw [← hmap]
              simp [h0]
            · rw [← hmap] at hid ⊢
              simp only [h0, Bool.false_eq_true, if_false] at hid ⊢
              exact absurd hid (by simpa using h0)
    · have hst2 : (c.status == "pending" || c.status == "calculated") = false := by
        simpa using hst
      have hstp : ¬ (c.status = "pending" ∨ c.status = "calculated") := by
        rintro (h | h) <;> simp [h] at hst2
      simp [hst2, hstp]

/-- C8: with the required fields present, a payment against a
nonexistent or already-paid tracking id answers the 404
"Commission not found or already paid" result — never the generic
500 — and leaves the store unchanged. -/
theorem recordPayment_notFound_or_paid (req : PaymentRequest) (s : Store)
    (hf : requiredFieldsPresent req = true)
    (h : lookupTracking (req.commission_tracking_id.getD 0) s = none
        ∨ ∃ c, lookupTracking (req.commission_tracking_id.getD 0) s = some c
            ∧ c.status = "paid") :
    recordPayment req s = (.notFoundOrPaid, s) := by
  unfold recordPayment
  simp only [hf, Bool.not_true, Bool.false_eq_true, if_false]
  rcases h with h | ⟨c, hc, hp⟩
  · rw [h]
  · rw [hc]
    have hfalse : (c.status == "pending" || c.status == "calculated") = false := by
      rw [hp]; decide
    simp [hfalse]

/-- C10: the truthiness gate of recordPayment: any falsy required
field — amount 0 included — is rejected as missing fields with the
store untouched, and consequently a tracking record whose
total_commission is 0 can never be paid through this route. -/
theorem payment_truthiness_gate :
    (∀ req s, requiredFieldsPresent req = false → recordPayment req s = (.missingFields, s))
    ∧ (∀ (req : PaymentRequest) s, req.amount = some 0 →
        recordPayment req s = (.missingFields, s))
    ∧ (∀ req s c, lookupTracking (req.commission_tracking_id.getD 0) s = some c →
        c.total_commission = 0 → ∀ p, (recordPayment req s).1 ≠ .success p) := by
  refine ⟨?_, ?_, ?_⟩
  · intro req s h
    simp [recordPayment, h]
  · intro req s h
    have hfalse : requiredFieldsPresent req = false := by
      simp [requiredFieldsPresent, truthyRat, h]
    simp [recordPayment, hfalse]
  · intro req s c hc h0 p
    by_cases hf : requiredFieldsPresent req = true
    · have hfa : truthyRat req.amount = true := by
        simp [requiredFieldsPresent] at hf
        exact hf.1.1.2
      obtain ⟨q, hq, hq0⟩ := truthyRat_spec req.amount hfa
      unfold recordPayment
      simp only [hf, Bool.not_true, Bool.false_eq_true, if_false, hc]
      by_cases hst : (c.status == "pending" || c.status == "calculated") = true
      · have ham : (req.amount.getD 0 != c.total_commission) = true := by
          rw [hq, Option.getD_some, h0]
          simpa using hq0
        simp [hst, ham]
      · have hst2 : (c.status == "pending" || c.status == "calculated") = false := by
          simpa using hst
        simp [hst2]
    · have hfalse : requiredFieldsPresent req = false := by
        simpa using hf
      simp [recordPayment, hfalse]

section
attribute [local semireducible] Rat.add Rat.mul Rat.sub Rat.inv

/-- A pending tracking record of 15 owed commission. -/
def payRow : TrackingRow :=
  { id := 1, consignor_id := 7, period_start := 10, period_end := 20,
    total_sales := 150, total_commission := 15, status := "pending", paid_amount := 0 }

def payStore : Store := ⟨[payRow], [], [], []⟩

/-- A well-formed payment request matching payRow exactly. -/
def payReq : PaymentRequest :=
  { commission_tracking_id := some 1, amount := some 15,
    payment_date := some "2024-02-01", payment_method := some "bank",
    transaction_reference := none, bank_name := none, account_last_four := none,
    card_last_four := none, card_type := none }

theorem recordPayment_succeeds_iff_witness :
    ∃ p, (recordPayment payReq payStore).1 = .success p :=
  (recordPayment_succeeds_iff payReq payStore (by decide)).1.mpr
    ⟨payRow, by decide, Or.inl rfl, by decide⟩

/-- A request against a tracking id that does not exist. -/
def absentReq : PaymentRequest :=
  { payReq with commission_tracking_id := some 5 }

/-- An already-paid tracking record and a matching request. -/
def paidRow : TrackingRow :=
  { id := 2, consignor_id := 7, period_start := 10, period_end := 20,
    total_sales := 150, total_commission := 15, status := "paid", paid_amount := 15 }

def paidStore : Store := ⟨[paidRow], [], [], []⟩

def paidReq : PaymentRequest :=
  { payReq with commission_tracking_id := some 2 }

theorem recordPayment_notFound_or_paid_witness :
    recordPayment absentReq payStore = (.notFoundOrPaid, payStore)
    ∧ recordPayment paidReq paidStore = (.notFoundOrPaid, paidStore) :=
  ⟨recordPayment_notFound_or_paid absentReq payStore (by decide) (Or.inl (by decide)),
    recordPayment_notFound_or_paid paidReq paidStore (by decide)
      (Or.inr ⟨paidRow, by decide, rfl⟩)⟩

/-- A request whose amount is 0. -/
def zeroAmountReq : PaymentRequest :=
  { payReq with amount := some 0 }

/-- A pending tracking record owing 0 commission. -/
def zeroTotalRow : TrackingRow :=
  { id := 3, consignor_id := 7, period_start := 10, period_end := 20,
    total_sales := 0, total_commission := 0, status := "pending", paid_amount := 0 }

def zeroTotalStore : Store := ⟨[zeroTotalRow], [], [], []⟩

def zeroTotalReq : PaymentRequest :=
  { payReq with commission_tracking_id := some 3 }

def dummyPayment : PaymentRow :=
  { commission_tracking_id := 3, amount := 0, payment_date := "2024-02-01",
    payment_method := "bank", transaction_reference := none, bank_name := none,
    account_last_four := none, card_last_four := none, card_type := none }

theorem payment_truthiness_gate_witness :
    recordPayment zeroAmountReq payStore = (.missingFields, payStore)
    ∧ (recordPayment zeroTotalReq zeroTotalStore).1 ≠ .success dummyPayment :=
  ⟨payment_truthiness_gate.2.1 zeroAmountReq payStore rfl,
    payment_truthiness_gate.2.2 zeroTotalReq zeroTotalStore zeroTotalRow (by decide) rfl
      dummyPayment⟩

end

/-! ## C7: the dashboard aggregation -/

/-- Correctness of one aggregation entry against the processed valid
rows: the key is the entry's id, totals are the sums over that key's
rows, and the displayed rate is the first-processed row's rate. -/
def entryOk (processed : List (Nat × String × Rat × Rat)) (kv : Nat × AggEntry) : Prop :=
  kv.1 = kv.2.id
  ∧ kv.2.totalSales = ((processed.filter fun r => r.1 == kv.1).map fun r => r.2.2.2).sum
  ∧ kv.2.commissionAmount
      = ((processed.filter fun r => r.1 == kv.1).map fun r => r.2.2.2 * r.2.2.1).sum
  ∧ ((processed.filter fun r => r.1 == kv.1).head?.map fun r => r.2.2.1)
      = some kv.2.commissionRate

/-- Invariant of the aggregation loop: every processed row's key has an
entry, and every entry is correct for the processed rows. -/
def mapOk (processed : List (Nat × String × Rat × Rat)) (m : List (Nat × AggEntry)) : Prop :=
  (∀ r ∈ processed, ∃ kv ∈ m, kv.1 = r.1) ∧ (∀ kv ∈ m, entryOk processed kv)

theorem updEntry_key (cid : Nat) (total rate : Rat) (kv : Nat × AggEntry) :
    (updEntry cid total rate kv).1 = kv.1 := by
  by_cases h : (kv.1 == cid) = true <;> simp [updEntry, h]

theorem updEntry_pos (cid : Nat) (total rate : Rat) (kv : Nat × AggEntry) (h : kv.1 = cid) :
    updEntry cid total rate kv = (kv.1, bumpEntry total rate kv.2) := by
  simp [updEntry, h]

theorem updEntry_neg (cid : Nat) (total rate : Rat) (kv : Nat × AggEntry) (h : kv.1 ≠ cid) :
    updEntry cid total rate kv = kv := by
  simp [updEntry, h]

theorem filter_append_single (processed : List (Nat × String × Rat × Rat))
    (v : Nat × String × Rat × Rat) (k : Nat) :
    ((processed ++ [v]).filter fun r => r.1 == k)
      = (processed.filter fun r => r.1 == k) ++ if v.1 = k then [v] else [] := by
  rw [List.filter_append]
  congr 1
  by_cases hv : v.1 = k
  · simp [List.filter_cons, hv]
  · simp [List.filter_cons, hv]

theorem entryOk_append_other (processed : List (Nat × String × Rat × Rat))
    (v : Nat × String × Rat × Rat) (kv : Nat × AggEntry)
    (h : entryOk processed kv) (hne : v.1 ≠ kv.1) :
    entryOk (processed ++ [v]) kv := by
  obtain ⟨hid, hts, hca, hr⟩ := h
  refine ⟨hid, ?_, ?_, ?_⟩ <;>
    rw [filter_append_single] <;>
    simp only [if_neg hne, List.append_nil]
  · exact hts
  · exact hca
  · exact hr

theorem entryOk_append_bump (processed : List (Nat × String × Rat × Rat))
    (v : Nat × String × Rat × Rat) (kv : Nat × AggEntry)
    (h : entryOk processed kv) (heq : v.1 = kv.1) :
    entryOk (processed ++ [v]) (kv.1, bumpEntry v.2.2.2 v.2.2.1 kv.2) := by
  obtain ⟨hid, hts, hca, hr⟩ := h
  refine ⟨by simpa [bumpEntry] using hid, ?_, ?_, ?_⟩
  · rw [filter_append_single, if_pos heq]
    simp [bumpEntry, hts]
  · rw [filter_append_single, if_pos heq]
    simp [bumpEntry, hca]
  · rw [filter_append_single, if_pos heq, List.head?_append]
    rcases ho : ((processed.filter fun r => r.1 == kv.1).head?) with _ | r0
    · rw [ho] at hr
      simp at hr
    · rw [ho] at hr
      rw [ho]
      simpa [bumpEntry, Option.or] using hr

theorem processLine_ok (processed : List (Nat × String × Rat × Rat))
    (m : List (Nat × AggEntry)) (line : CommissionLine) (h : mapOk processed m) :
    mapOk (processed ++ (extractLine line).toList) (processLine m line) := by
  obtain ⟨hcov, hent⟩ := h
  cases hex : extractLine line with
  | none =>
    simp only [processLine, hex, Option.toList_none, List.append_nil]
    exact ⟨hcov, hent⟩
  | some v =>
    obtain ⟨cid, name, rate, total⟩ := v
    simp only [processLine, hex, Option.toList_some]
    by_cases hfs : (m.find? fun kv => kv.1 == cid).isSome = true
    · simp only [hfs, if_true]
      constructor
      · intro r hr
        rcases List.mem_append.mp hr with hr | hr
        · obtain ⟨kv, hkv, hk⟩ := hcov r hr
          exact ⟨updEntry cid total rate kv, List.mem_map.mpr ⟨kv, hkv, rfl⟩,
            (updEntry_key cid total rate kv).trans hk⟩
        · obtain ⟨x, hx, hxc⟩ := List.find?_isSome.mp hfs
          have hxc' : x.1 = cid := by simpa using hxc
          simp only [List.mem_singleton] at hr
          subst hr
          exact ⟨updEntry cid total rate x, List.mem_map.mpr ⟨x, hx, rfl⟩,
            (updEntry_key cid total rate x).trans hxc'⟩
      · intro kv' hkv'
        obtain ⟨kv, hkv, hupd⟩ := List.mem_map.mp hkv'
        subst hupd
        by_cases hc : kv.1 = cid
        · rw [updEntry_pos cid total rate kv hc]
          exact entryOk_append_bump processed (cid, name, rate, total) kv
            (hent kv hkv) (hc.symm)
        · rw [updEntry_neg cid total rate kv hc]
          exact entryOk_append_other processed (cid, name, rate, total) kv
            (hent kv hkv) (fun hh => hc hh.symm)
    · have hnone : (m.find? fun kv => kv.1 == cid) = none := by
        cases hfm : (m.find? fun kv => kv.1 == cid) with
        | none => rfl
        | some x => rw [hfm] at hfs; simp at hfs
      have hnokey : ∀ kv ∈ m, kv.1 ≠ cid := by
        intro kv hkv hk
        have := List.find?_eq_none.mp hnone kv hkv
        simp [hk] at this
      have hnoproc : ∀ r ∈ processed, r.1 ≠ cid := by
        intro r hr hk
        obtain ⟨kv, hkv, hkk⟩ := hcov r hr
        exact hnokey kv hkv (hkk.trans hk)
      simp only [hfs, Bool.false_eq_true, if_false]
      constructor
      · intro r hr
        rcases List.mem_append.mp hr with hr | hr
        · obtain ⟨kv, hkv, hk⟩ := hcov r hr
          exact ⟨updEntry cid total rate kv,
            List.mem_map.mpr ⟨kv, List.mem_append_left _ hkv, rfl⟩,
            (updEntry_key cid total rate kv).trans hk⟩
        · simp only [List.mem_singleton] at hr
          subst hr
          exact ⟨updEntry cid total rate (cid, ⟨cid, name, 0, rate, 0⟩),
            List.mem_map.mpr ⟨_, List.mem_append_right _ (by simp), rfl⟩,
            (updEntry_key cid total rate _).trans rfl⟩
      · intro kv' hkv'
        obtain ⟨kv, hkv, hupd⟩ := List.mem_map.mp hkv'
        subst hupd
        rcases List.mem_append.mp hkv with hkv | hkv
        · rw [updEntry_neg cid total rate kv (hnokey kv hkv)]
          exact entryOk_append_other processed (cid, name, rate, total) kv
            (hent kv hkv) (fun hh => hnokey kv hkv hh.symm)
        · simp only [List.mem_singleton] at hkv
          subst hkv
          rw [updEntry_pos cid total rate _ rfl]
          have hproc : (processed.filter fun r => r.1 == cid) = [] :=
            List.filter_eq_nil_iff.mpr fun r hr => by simpa using hnoproc r hr
          refine ⟨by simp [bumpEntry], ?_, ?_, ?_⟩ <;>
            rw [filter_append_single, if_pos rfl] <;>
            simp [hproc, bumpEntry]

theorem validRows_cons (line : CommissionLine) (rest : List CommissionLine) :
    validRows (line :: rest) = (extractLine line).toList ++ validRows rest := by
  cases h : extractLine line <;> simp [validRows, List.filterMap_cons, h]

theorem foldl_ok (lines : List CommissionLine) (processed : List (Nat × String × Rat × Rat))
    (m : List (Nat × AggEntry)) (h : mapOk processed m) :
    mapOk (processed ++ validRows lines) (lines.foldl processLine m) := by
  induction lines generalizing processed m with
  | nil => simpa [validRows] using h
  | cons line rest ih =>
    have h1 := processLine_ok processed m line h
    have h2 := ih _ _ h1
    rw [List.foldl_cons]
    rw [validRows_cons, ← List.append_assoc]
    exact h2

/-- C7 amended: for every consignor entry the aggregator outputs,
totalSales is the sum of line_total over that consignor's surviving
rows and commissionAmount the sum of line_total times commission_rate,
while the displayed commissionRate is the rate of the first-processed
row for that consignor (the map entry is created with the first row's
rate and never updated afterwards). -/
theorem consignorCommissions_agg (lines : List CommissionLine) :
    ∀ e ∈ getConsignorCommissions lines,
      e.totalSales = ((rowsFor e.id lines).map fun r => r.2.2.2).sum
      ∧ e.commissionAmount = ((rowsFor e.id lines).map fun r => r.2.2.2 * r.2.2.1).sum
      ∧ ((rowsFor e.id lines).head?.map fun r => r.2.2.1) = some e.commissionRate := by
  intro e he
  have h0 : mapOk [] ([] : List (Nat × AggEntry)) := ⟨by simp, by simp⟩
  have h := foldl_ok lines [] [] h0
  simp only [List.nil_append] at h
  simp only [getConsignorCommissions, List.mem_map] at he
  obtain ⟨kv, hkv, hkve⟩ := he
  obtain ⟨hid, hts, hca, hr⟩ := h.2 kv hkv
  subst hkve
  rw [show kv.2.id = kv.1 from hid.symm]
  exact ⟨hts, hca, hr⟩

/-- The claim as frozen: sums as above but with the displayed
commissionRate taken from the LAST-processed row of the consignor. -/
def lastRateClaim (lines : List CommissionLine) : Prop :=
  ∀ e ∈ getConsignorCommissions lines,
    e.totalSales = ((rowsFor e.id lines).map fun r => r.2.2.2).sum
    ∧ e.commissionAmount = ((rowsFor e.id lines).map fun r => r.2.2.2 * r.2.2.1).sum
    ∧ ((rowsFor e.id lines).getLast?.map fun r => r.2.2.1) = some e.commissionRate

section
attribute [local semireducible] Rat.add Rat.mul Rat.sub Rat.inv

/-- One consignor whose commission rate differs between the two
processed rows: rate 1/2 on the first line, 1/4 on the second. -/
def demoLines : List CommissionLine :=
  [{ line_total := some 100, commission_rate := some (1/2),
     products := some { consignors := some { id := 1, full_name := "Avery" } } },
   { line_total := some 100, commission_rate := some (1/4),
     products := some { consignors := some { id := 1, full_name := "Avery" } } }]

/-- C7 counterexample: on demoLines the aggregator displays the rate
of the first-processed row (1/2), not of the last-processed one (1/4),
so the claim as stated is false at this input. -/
theorem consignorCommissions_not_last_rate : ¬ lastRateClaim demoLines := by
  unfold lastRateClaim
  decide

/-- The single entry the aggregator outputs on demoLines. -/
def demoEntry : AggEntry :=
  { id := 1, consignorName := "Avery", totalSales := 200,
    commissionRate := 1/2, commissionAmount := 75 }

theorem consignorCommissions_agg_witness :
    demoEntry.totalSales = ((rowsFor demoEntry.id demoLines).map fun r => r.2.2.2).sum
    ∧ demoEntry.commissionAmount
        = ((rowsFor demoEntry.id demoLines).map fun r => r.2.2.2 * r.2.2.1).sum
    ∧ ((rowsFor demoEntry.id demoLines).head?.map fun r => r.2.2.1)
        = some demoEntry.commissionRate :=
  consignorCommissions_agg demoLines demoEntry (by decide)

end

/-! ## C9: the naming translator -/

theorem toNat_ofNat_valid {n : Nat} (h : n < 55296) : (Char.ofNat n).toNat = n := by
  have hv : n.isValidChar := Or.inl h
  rw [Char.ofNat, dif_pos hv]
  simp [Char.ofNatAux, Char.toNat, UInt32.toNat, BitVec.toNat_ofNatLt]

theorem lower_bounds {c : Char} (h : isAsciiLower c = true) :
    97 ≤ c.toNat ∧ c.toNat ≤ 122 := by
  simpa [isAsciiLower] using h

theorem toUpper_of_lower {c : Char} (h : isAsciiLower c = true) :
    c.toUpper = Char.ofNat (c.toNat - 32) := by
  obtain ⟨h1, h2⟩ := lower_bounds h
  rw [Char.toUpper]
  simp only [if_pos (And.intro h1 h2)]

theorem toNat_toUpper_of_lower {c : Char} (h : isAsciiLower c = true) :
    c.toUpper.toNat = c.toNat - 32 := by
  obtain ⟨h1, h2⟩ := lower_bounds h
  rw [toUpper_of_lower h, toNat_ofNat_valid (by omega)]

theorem isAsciiUpper_toUpper {c : Char} (h : isAsciiLower c = true) :
    isAsciiUpper c.toUpper = true := by
  obtain ⟨h1, h2⟩ := lower_bounds h
  simp only [isAsciiUpper, toNat_toUpper_of_lower h, Bool.and_eq_true, decide_eq_true_eq]
  omega

theorem toLower_toUpper_of_lower {c : Char} (h : isAsciiLower c = true) :
    c.toUpper.toLower = c := by
  obtain ⟨h1, h2⟩ := lower_bounds h
  have hn := toNat_toUpper_of_lower h
  rw [Char.toLower, if_pos (by omega : c.toUpper.toNat ≥ 65 ∧ c.toUpper.toNat ≤ 90)]
  rw [hn, show c.toNat - 32 + 32 = c.toNat by omega, Char.ofNat_toNat]

theorem underscore_not_upper : isAsciiUpper '_' = false := by decide

theorem snake_camel_chars (l : List Char) (h : ∀ c ∈ l, isAsciiUpper c = false) :
    snakeChars (camelChars l) = l := by
  induction l using camelChars.induct with
  | case1 => rfl
  | case2 c rest hlow ih =>
    rw [camelChars, if_pos hlow, snakeChars, if_pos (isAsciiUpper_toUpper hlow),
      toLower_toUpper_of_lower hlow, ih]
    intro x hx
    exact h x (List.mem_cons_of_mem _ (List.mem_cons_of_mem _ hx))
  | case3 c rest hlow ih =>
    rw [camelChars, if_neg hlow, snakeChars, if_neg (by rw [underscore_not_upper]; simp), ih]
    intro x hx
    exact h x (List.mem_cons_of_mem _ hx)
  | case4 c rest hne ih =>
    have hc : isAsciiUpper c = false := h c (List.mem_cons_self c rest)
    rw [camelChars.eq_3 c rest hne, snakeChars, if_neg (by simp [hc]), ih]
    intro x hx
    exact h x (List.mem_cons_of_mem _ hx)

theorem snakeKey_camelKey (k : String) (h : isSnakeKey k = true) :
    snakeKey (camelKey k) = k := by
  have hs : ∀ c ∈ k.data, isAsciiUpper c = false := by
    simpa [isSnakeKey, List.all_eq_true] using h
  cases k with
  | mk data =>
    simp only [camelKey, snakeKey]
    exact congrArg String.mk (snake_camel_chars data hs)

mutual
theorem snake_camel_value : ∀ v, allSnakeKeys v = true → toSnakeCase (toCamelCase v) = v
  | .null, _ => rfl
  | .jbool _, _ => rfl
  | .num _, _ => rfl
  | .str _, _ => rfl
  | .arr items, h => by
    rw [toCamelCase, toSnakeCase,
      snake_camel_array items (by simpa [allSnakeKeys] using h)]
  | .obj fields, h => by
    rw [toCamelCase, toSnakeCase,
      snake_camel_object fields (by simpa [allSnakeKeys] using h)]
theorem snake_camel_array : ∀ a, allSnakeKeysArray a = true → snakeCaseArray (camelCaseArray a) = a
  | .nil, _ => rfl
  | .cons v rest, h => by
    have h1 : allSnakeKeys v = true ∧ allSnakeKeysArray rest = true := by
      simpa [allSnakeKeysArray, Bool.and_eq_true] using h
    rw [camelCaseArray, snakeCaseArray, snake_camel_value v h1.1, snake_camel_array rest h1.2]
theorem snake_camel_object : ∀ o, allSnakeKeysObject o = true →
    snakeCaseObject (camelCaseObject o) = o
  | .nil, _ => rfl
  | .cons k v rest, h => by
    have h1 : isSnakeKey k = true ∧ allSnakeKeys v = true ∧ allSnakeKeysObject rest = true := by
      simpa [allSnakeKeysObject, Bool.and_eq_true, and_assoc] using h
    rw [camelCaseObject, snakeCaseObject, snakeKey_camelKey k h1.1,
      snake_camel_value v h1.2.1, snake_camel_object rest h1.2.2]
end

theorem camelCaseArray_eq_map : ∀ a, camelCaseArray a = mapArray toCamelCase a
  | .nil => rfl
  | .cons v rest => by rw [camelCaseArray, mapArray, camelCaseArray_eq_map rest]

theorem snakeCaseArray_eq_map : ∀ a, snakeCaseArray a = mapArray toSnakeCase a
  | .nil => rfl
  | .cons v rest => by rw [snakeCaseArray, mapArray, snakeCaseArray_eq_map rest]

/-- C9: the translators map arrays element-wise, pass non-object and
non-array values through unchanged, short-circuit null to itself, and
toSnakeCase after toCamelCase is the identity on every value all of
whose object keys are consistently underscore_case — no information is
lost. -/
theorem translator_props :
    (∀ a, toCamelCase (.arr a) = .arr (mapArray toCamelCase a))
    ∧ (∀ a, toSnakeCase (.arr a) = .arr (mapArray toSnakeCase a))
    ∧ toCamelCase .null = .null
    ∧ toSnakeCase .null = .null
    ∧ (∀ b, toCamelCase (.jbool b) = .jbool b)
    ∧ (∀ q, toCamelCase (.num q) = .num q)
    ∧ (∀ s, toCamelCase (.str s) = .str s)
    ∧ (∀ b, toSnakeCase (.jbool b) = .jbool b)
    ∧ (∀ q, toSnakeCase (.num q) = .num q)
    ∧ (∀ s, toSnakeCase (.str s) = .str s)
    ∧ (∀ v, allSnakeKeys v = true → toSnakeCase (toCamelCase v) = v) := by
  refine ⟨?_, ?_, rfl, rfl, fun _ => rfl, fun _ => rfl, fun _ => rfl, fun _ => rfl,
    fun _ => rfl, fun _ => rfl, snake_camel_value⟩
  · intro a
    rw [toCamelCase, camelCaseArray_eq_map]
  · intro a
    rw [toSnakeCase, snakeCaseArray_eq_map]

/-- A nested snake_case-keyed value: an object holding a number, a
string and an array of one nested object. -/
def demoValue : JValue :=
  .obj (.cons "consignor_id" (.num 7)
    (.cons "full_name" (.str "Avery")
      (.cons "sale_items"
        (.arr (.cons (.obj (.cons "line_total" (.num 100) .nil)) .nil)) .nil)))

theorem translator_props_witness :
    toSnakeCase (toCamelCase demoValue) = demoValue :=
  translator_props.2.2.2.2.2.2.2.2.2.2 demoValue (by rfl)
